import Mathlib

/-!
Verification of the consulting project evaluator (src/app.py).

The application is CRUD over two tables plus a linear cost formula.  We embed
the persistent state shallowly:

* the `public.consultants` table (primary key `role`) as a `List ConsultantRate`;
* the `public.projects` table (`id SERIAL PRIMARY KEY`) as a `List Project`
  together with the next value of the `SERIAL` sequence;
* columns of SQL type `REAL` as exact rationals `ℚ` (the claims are stated
  with exact arithmetic);
* Python `dict` assignments (role ↦ headcount) as association lists.

Mutating helpers of app.py return `Except AppError DB` so that the error
taxonomy of the specification (`ValidationError`, `NotFoundError`) is statable;
the embedded functions return `Except.ok` exactly where the Python code returns
without raising.
-/

namespace ConsultingApp

/-- Row of the `public.consultants` table (app.py lines 16-20). -/
structure ConsultantRate where
  role : String
  annual_salary : ℚ
  fixed_cost : ℚ
  deriving DecidableEq

/-- Row of the `public.projects` table (app.py lines 36-44); `consultants_json`
holds the decoded assignment mapping. -/
structure Project where
  id : Nat
  name : String
  duration : Int
  sales_price : ℚ
  consultants_json : List (String × Int)
  deriving DecidableEq

/-- An assignment maps role names to headcounts, as the Python dict does. -/
abbrev Assignment := List (String × Int)

/-- The whole persistent state: both tables and the `SERIAL` sequence of
`public.projects`. -/
structure DB where
  consultants : List ConsultantRate
  projects : List Project
  nextId : Nat
  deriving DecidableEq

/-- Error taxonomy of the specification (§7). -/
inductive AppError where
  | validationError
  | notFoundError
  deriving DecidableEq

/-- The empty database; `SERIAL` sequences start at 1. -/
def dbEmpty : DB := { consultants := [], projects := [], nextId := 1 }

/-- Embeds `consultants[consultants['role'] == role]` followed by
`filtered.iloc[0]` (app.py lines 60-62): the first row whose `role` matches. -/
def lookupRate (rates : List ConsultantRate) (role : String) : Option ConsultantRate :=
  rates.find? (fun r => r.role == role)

/-- Cost contributed by a single `(role, count)` entry of the loop body of
`calculate_costs` (app.py lines 58-66): entries with `count <= 0` and roles
missing from the rate table contribute nothing. -/
def roleCost (rates : List ConsultantRate) (duration : Int) (role : String)
    (count : Int) : ℚ :=
  if 0 < count then
    match lookupRate rates role with
    | some row =>
        let daily_cost := row.annual_salary / 220
        daily_cost * (duration : ℚ) * (count : ℚ) + row.fixed_cost * (count : ℚ)
    | none => 0
  else 0

/-- Embeds `calculate_costs` (app.py lines 55-67), with the rate table passed
explicitly in place of the `get_consultants()` read. -/
def calculate_costs (rates : List ConsultantRate) (duration : Int)
    (assignments : Assignment) : ℚ :=
  assignments.foldl (fun total_cost p => total_cost + roleCost rates duration p.1 p.2) 0

/-- Embeds the margin expression
`margin = (profit / sales_price * 100) if sales_price > 0 else 0` with
`profit = sales_price - total_cost` (app.py lines 186-187, repeated at
lines 214-215 and 275-276). -/
def margin (sales_price total_cost : ℚ) : ℚ :=
  if 0 < sales_price then (sales_price - total_cost) / sales_price * 100 else 0

/-- The four default rows seeded by `init_db` (app.py lines 23-28). -/
def defaultConsultants : List ConsultantRate :=
  [{ role := "Strategy Consultant", annual_salary := 27000, fixed_cost := 500 },
   { role := "Senior Strategy Consultant", annual_salary := 40000, fixed_cost := 1000 },
   { role := "IT Consultant", annual_salary := 24000, fixed_cost := 500 },
   { role := "Senior IT Consultant", annual_salary := 37000, fixed_cost := 1000 }]

/-- One seeding step: `INSERT ... ON CONFLICT (role) DO NOTHING`
(app.py lines 30-34).  Since `role` is the primary key, the row is appended
exactly when no row with that role exists. -/
def insertIfAbsent (t : List ConsultantRate) (r : ConsultantRate) : List ConsultantRate :=
  if (t.find? (fun x => x.role == r.role)).isSome then t else t ++ [r]

/-- Embeds `init_db` (app.py lines 12-45).  `CREATE TABLE IF NOT EXISTS` leaves
existing tables untouched, so the only state change is the seeding loop over
the four defaults. -/
def init_db (db : DB) : DB :=
  { db with consultants := defaultConsultants.foldl insertIfAbsent db.consultants }

/-- Embeds `save_project` (app.py lines 69-80): a plain `INSERT` with no
validation and no error path; `id SERIAL` assigns the next sequence value. -/
def save_project (db : DB) (name : String) (duration : Int) (sales_price : ℚ)
    (assignments : Assignment) : Except AppError DB :=
  Except.ok { db with
    projects := db.projects ++
      [{ id := db.nextId, name := name, duration := duration,
         sales_price := sales_price, consultants_json := assignments }],
    nextId := db.nextId + 1 }

/-- Embeds `update_project` (app.py lines 82-95): `UPDATE ... WHERE id = :id`
rewrites every row whose `id` matches (zero rows when the id is absent) and
raises nothing either way. -/
def update_project (db : DB) (project_id : Nat) (name : String) (duration : Int)
    (sales_price : ℚ) (assignments : Assignment) : Except AppError DB :=
  Except.ok { db with
    projects := db.projects.map (fun p =>
      if p.id = project_id then
        { id := project_id, name := name, duration := duration,
          sales_price := sales_price, consultants_json := assignments }
      else p) }

/-- Embeds `delete_project` (app.py lines 97-100): `DELETE ... WHERE id = :id`
removes the matching rows and raises nothing when none match. -/
def delete_project (db : DB) (project_id : Nat) : Except AppError DB :=
  Except.ok { db with projects := db.projects.filter (fun p => p.id != project_id) }

/-- The table produced by the `ON CONFLICT (role) DO UPDATE` upsert of
`add_consultant` (app.py lines 109-114): overwrite the matching rows if the
role exists, otherwise append a fresh row. -/
def upsertRate (t : List ConsultantRate) (role : String) (annual_salary fixed_cost : ℚ) :
    List ConsultantRate :=
  if (t.find? (fun x => x.role == role)).isSome then
    t.map (fun x =>
      if x.role == role then
        { role := role, annual_salary := annual_salary, fixed_cost := fixed_cost }
      else x)
  else
    t ++ [{ role := role, annual_salary := annual_salary, fixed_cost := fixed_cost }]

/-- Embeds `add_consultant` (app.py lines 107-120): the upsert on the
consultants table; no input validation happens here (the empty-role check sits
in the UI form at app.py lines 322-325). -/
def add_consultant (db : DB) (role : String) (annual_salary fixed_cost : ℚ) :
    Except AppError DB :=
  Except.ok { db with consultants := upsertRate db.consultants role annual_salary fixed_cost }

/-! ### Helper lemmas about the costing function -/

theorem foldl_add_roleCost (rates : List ConsultantRate) (duration : Int) :
    ∀ (l : Assignment) (a : ℚ),
      l.foldl (fun total_cost p => total_cost + roleCost rates duration p.1 p.2) a
        = a + (l.map (fun p => roleCost rates duration p.1 p.2)).sum := by
  intro l
  induction l with
  | nil => intro a; simp
  | cons p t ih =>
      intro a
      simp only [List.foldl_cons, List.map_cons, List.sum_cons, ih, add_assoc]

theorem calculate_costs_eq_sum (rates : List ConsultantRate) (duration : Int)
    (assignments : Assignment) :
    calculate_costs rates duration assignments
      = (assignments.map (fun p => roleCost rates duration p.1 p.2)).sum := by
  unfold calculate_costs
  rw [foldl_add_roleCost]
  simp

theorem roleCost_of_lookup_none (rates : List ConsultantRate) (duration : Int)
    (role : String) (count : Int) (h : lookupRate rates role = none) :
    roleCost rates duration role count = 0 := by
  unfold roleCost
  rw [h]
  split <;> rfl

theorem roleCost_of_nonpos (rates : List ConsultantRate) (duration : Int)
    (role : String) (count : Int) (h : ¬ 0 < count) :
    roleCost rates duration role count = 0 := by
  unfold roleCost
  rw [if_neg h]

/-! ### Claims about the costing function and the margin -/

/-- Claim C1: for every duration > 0, every count ≥ 0 and a role present in the
rate table, `calculate_costs` on the single-role assignment returns exactly
`(annual_salary / 220) * duration * count + fixed_cost * count`. -/
theorem spec_C1 (rates : List ConsultantRate) (role : String) (row : ConsultantRate)
    (duration count : Int) (hdur : 0 < duration) (hcount : 0 ≤ count)
    (hrow : lookupRate rates role = some row) :
    calculate_costs rates duration [(role, count)]
      = (row.annual_salary / 220) * (duration : ℚ) * (count : ℚ)
        + row.fixed_cost * (count : ℚ) := by
  rcases lt_or_eq_of_le hcount with hpos | hzero
  · simp [calculate_costs, roleCost, hpos, hrow]
  · have h0 : count = 0 := hzero.symm
    subst h0
    rw [calculate_costs_eq_sum]
    simp [roleCost_of_nonpos rates duration role 0 (by norm_num)]

/-- Witness for C1: the scenario of spec §8 — duration 30, two Strategy
Consultants at (27000, 500) cost 27000/220·30·2 + 500·2 = 92000/11. -/
theorem spec_C1_witness :
    calculate_costs defaultConsultants 30 [("Strategy Consultant", 2)] = 92000 / 11 := by
  rw [spec_C1 defaultConsultants "Strategy Consultant"
        { role := "Strategy Consultant", annual_salary := 27000, fixed_cost := 500 }
        30 2 (by decide) (by decide) (by decide)]
  norm_num

/-- Claim C2: an assignment entry whose role is absent from the rate table
contributes exactly 0 to the total cost, whatever its count, and no error is
raised (the function is total and simply skips the entry). -/
theorem spec_C2 (rates : List ConsultantRate) (duration : Int) (role : String)
    (count : Int) (pre post : Assignment)
    (habs : lookupRate rates role = none) :
    calculate_costs rates duration (pre ++ (role, count) :: post)
      = calculate_costs rates duration (pre ++ post) := by
  rw [calculate_costs_eq_sum, calculate_costs_eq_sum]
  simp [roleCost_of_lookup_none rates duration role count habs]

/-- Witness for C2: the ghost-role scenario of spec §8 — an assignment of five
consultants of a role the rate table does not know costs nothing. -/
theorem spec_C2_witness :
    calculate_costs defaultConsultants 30 [("Ghost Role", 5)]
      = calculate_costs defaultConsultants 30 [] :=
  spec_C2 defaultConsultants 30 "Ghost Role" 5 [] [] (by decide)

/-- Claim C9: entries with count ≤ 0 contribute nothing — the total equals the
total over only the entries with positive count; negative counts are neither
validated nor rejected (the function is total on all integer counts). -/
theorem spec_C9 (rates : List ConsultantRate) (duration : Int) (assignments : Assignment) :
    calculate_costs rates duration assignments
      = calculate_costs rates duration
          (assignments.filter (fun p => decide (0 < p.2))) := by
  rw [calculate_costs_eq_sum, calculate_costs_eq_sum]
  induction assignments with
  | nil => rfl
  | cons p t ih =>
      by_cases hp : 0 < p.2
      · simp only [List.filter_cons]
        rw [if_pos (by simpa using hp)]
        simp only [List.map_cons, List.sum_cons, ih]
      · simp only [List.filter_cons]
        rw [if_neg (by simpa using hp)]
        simp only [List.map_cons, List.sum_cons, ih,
          roleCost_of_nonpos rates duration p.1 p.2 hp, zero_add]

/-- Counterexample to C3 as stated: the claim quantifies over every
`sales_price` and asserts the formula whenever `sales_price ≠ 0`, but the code
tests `sales_price > 0`, so at `sales_price = -1`, `total_cost = 0` the code
yields 0 while the claimed formula yields 100. -/
theorem spec_C3_counterexample :
    margin (-1) 0 ≠ (((-1 : ℚ) - 0) / (-1)) * 100 := by
  norm_num [margin]

/-- Claim C3 as amended: `margin` is 0 whenever `sales_price ≤ 0` (the code
guards on `sales_price > 0`, not merely on `sales_price ≠ 0`), equals
`(sales_price - total_cost) / sales_price * 100` whenever `sales_price > 0`,
and is negative when the cost exceeds a positive price; no division by zero
occurs since the dividing branch requires `sales_price > 0`. -/
theorem spec_C3 (sales_price total_cost : ℚ) :
    (sales_price ≤ 0 → margin sales_price total_cost = 0)
    ∧ (0 < sales_price →
        margin sales_price total_cost = (sales_price - total_cost) / sales_price * 100)
    ∧ (0 < sales_price → sales_price < total_cost → margin sales_price total_cost < 0) := by
  refine ⟨fun hle => ?_, fun hpos => ?_, fun hpos hlt => ?_⟩
  · rw [margin, if_neg (not_lt.mpr hle)]
  · rw [margin, if_pos hpos]
  · rw [margin, if_pos hpos]
    apply mul_neg_of_neg_of_pos _ (by norm_num)
    exact div_neg_of_neg_of_pos (by linarith) hpos

/-- Witness for C3 (amended): at price 4 and cost 6 the margin is the exact
formula value −50 and in particular negative. -/
theorem spec_C3_witness :
    margin 4 6 = ((4 : ℚ) - 6) / 4 * 100 ∧ margin 4 6 < 0 :=
  ⟨(spec_C3 4 6).2.1 (by norm_num), (spec_C3 4 6).2.2 (by norm_num) (by norm_num)⟩

/-! ### Helper lemmas about seeding -/

theorem insertIfAbsent_cases (t : List ConsultantRate) (r : ConsultantRate) :
    insertIfAbsent t r = t
    ∨ (insertIfAbsent t r = t ++ [r]
        ∧ t.find? (fun x => x.role == r.role) = none) := by
  unfold insertIfAbsent
  cases hf : t.find? (fun x => x.role == r.role) with
  | some a => left; rfl
  | none => right; exact ⟨rfl, rfl⟩

theorem foldl_insertIfAbsent_append :
    ∀ (l t : List ConsultantRate), ∃ extra, l.foldl insertIfAbsent t = t ++ extra := by
  intro l
  induction l with
  | nil => exact fun t => ⟨[], by simp⟩
  | cons r l ih =>
      intro t
      rw [List.foldl_cons]
      rcases insertIfAbsent_cases t r with h | ⟨h, -⟩
      · rw [h]; exact ih t
      · rw [h]
        obtain ⟨extra, hx⟩ := ih (t ++ [r])
        refine ⟨r :: extra, ?_⟩
        rw [hx, List.append_assoc]
        rfl

theorem countP_foldl_insertIfAbsent (ρ : String) :
    ∀ (l t : List ConsultantRate),
      0 < t.countP (fun r => r.role == ρ) →
      (l.foldl insertIfAbsent t).countP (fun r => r.role == ρ)
        = t.countP (fun r => r.role == ρ) := by
  intro l
  induction l with
  | nil => exact fun t _ => rfl
  | cons r l ih =>
      intro t ht
      rw [List.foldl_cons]
      rcases insertIfAbsent_cases t r with h | ⟨h, hnone⟩
      · rw [h]; exact ih t ht
      · rw [h]
        have hrρ : ¬ (r.role == ρ) = true := by
          intro hb
          obtain ⟨a, ha, hpa⟩ := List.countP_pos_iff.mp ht
          apply List.find?_eq_none.mp hnone a ha
          have h1 : a.role = ρ := by simpa using hpa
          have h2 : r.role = ρ := by simpa using hb
          simp [h1, h2]
        have hcount : (t ++ [r]).countP (fun x => x.role == ρ)
            = t.countP (fun x => x.role == ρ) := by
          rw [List.countP_append]
          simp [hrρ]
        rw [ih (t ++ [r]) (by rw [hcount]; exact ht), hcount]

/-- Claim C7: seeding is idempotent — against the empty table `init_db` inserts
exactly the four default rows, a second run yields the same four rows, and
against any table the existing rows are kept in place (the seeded rows are
only ever appended) with no role that is already present gaining or losing
rows or being reset. -/
theorem spec_C7 :
    (init_db dbEmpty).consultants = defaultConsultants
    ∧ (init_db (init_db dbEmpty)).consultants = defaultConsultants
    ∧ (∀ db : DB, ∃ extra, (init_db db).consultants = db.consultants ++ extra)
    ∧ (∀ db : DB, ∀ ρ : String,
        0 < db.consultants.countP (fun r => r.role == ρ) →
        (init_db db).consultants.countP (fun r => r.role == ρ)
          = db.consultants.countP (fun r => r.role == ρ)) :=
  ⟨by decide, by decide, fun db => foldl_insertIfAbsent_append defaultConsultants db.consultants,
    fun db ρ h => countP_foldl_insertIfAbsent ρ defaultConsultants db.consultants h⟩

/-- A one-row table used to exercise the seeding claims on concrete input. -/
def dbSeedTest : DB :=
  { consultants := [{ role := "X", annual_salary := 1, fixed_cost := 2 }],
    projects := [], nextId := 1 }

/-- Witness for C7: seeding a table that already holds a row for role "X"
leaves exactly one row for "X". -/
theorem spec_C7_witness :
    (init_db dbSeedTest).consultants.countP (fun r => r.role == "X")
      = dbSeedTest.consultants.countP (fun r => r.role == "X") :=
  spec_C7.2.2.2 dbSeedTest "X" (by decide)

/-! ### Claims about the project store -/

/-- Counterexample to C4 as stated: `save_project` performs no validation, so
at `duration = 0 < 1` and `sales_price = -1 < 0` it does not fail with
`ValidationError` — it inserts the row anyway. -/
theorem spec_C4_counterexample :
    save_project dbEmpty "proj" 0 (-1) []
        = Except.ok { consultants := [], projects :=
            [{ id := 1, name := "proj", duration := 0, sales_price := -1,
               consultants_json := [] }], nextId := 2 }
      ∧ save_project dbEmpty "proj" 0 (-1) [] ≠ Except.error AppError.validationError :=
  ⟨rfl, by simp [save_project]⟩

/-- Claim C4 as amended: `save_project` performs no validation and never fails
with `ValidationError` — for every input, including `duration < 1` or
`sales_price < 0`, it appends one project carrying the given fields under the
fresh `SERIAL` id, keeps the existing projects and the rate table intact, and
advances the sequence (the `duration ≥ 1` and `sales_price ≥ 0` constraints
are enforced only by the UI form widgets, app.py lines 172-173, and the new id
is not returned to the caller). -/
theorem spec_C4 (db : DB) (name : String) (duration : Int) (sales_price : ℚ)
    (assignments : Assignment) :
    ∃ db', save_project db name duration sales_price assignments = Except.ok db'
      ∧ db'.projects.length = db.projects.length + 1
      ∧ db'.projects.getLast?
          = some (Project.mk db.nextId name duration sales_price assignments)
      ∧ db'.projects.take db.projects.length = db.projects
      ∧ db'.consultants = db.consultants
      ∧ db'.nextId = db.nextId + 1 :=
  ⟨_, rfl, by simp [save_project], List.getLast?_concat .., List.take_left .., rfl, rfl⟩

/-- Counterexample to C5 as stated: on an id that does not exist (id 1 in the
empty store) `update_project` does not fail with `NotFoundError` — the SQL
`UPDATE` matches zero rows and returns normally, leaving the store unchanged. -/
theorem spec_C5_counterexample :
    update_project dbEmpty 1 "x" 5 10 [] = Except.ok dbEmpty
      ∧ update_project dbEmpty 1 "x" 5 10 [] ≠ Except.error AppError.notFoundError :=
  ⟨rfl, by simp [update_project]⟩

/-- Claim C5 as amended: when the given id does not exist, `update_project`
raises no error and is a no-op (it does not fail with `NotFoundError`); when
the id exists, it replaces all fields (name, duration, sales_price,
assignment) of every project carrying that id. -/
theorem spec_C5 (db : DB) (pid : Nat) (name : String) (dur : Int) (sp : ℚ)
    (asg : Assignment) :
    ∃ db', update_project db pid name dur sp asg = Except.ok db'
      ∧ (pid ∉ db.projects.map Project.id → db' = db)
      ∧ (pid ∈ db.projects.map Project.id →
          Project.mk pid name dur sp asg ∈ db'.projects
          ∧ ∀ p ∈ db'.projects, p.id = pid → p = Project.mk pid name dur sp asg) := by
  refine ⟨_, rfl, fun habs => ?_, fun hmem => ⟨?_, fun q hq hqid => ?_⟩⟩
  · have hmap : db.projects.map
        (fun p => if p.id = pid then Project.mk pid name dur sp asg else p)
          = db.projects := by
      conv_rhs => rw [← List.map_id db.projects]
      apply List.map_congr_left
      intro p hp
      have hne : ¬ p.id = pid := fun hEq => habs (hEq ▸ List.mem_map_of_mem Project.id hp)
      simp [hne]
    show ({ db with projects := _ } : DB) = db
    rw [hmap]
  · obtain ⟨p, hp, hpid⟩ := List.mem_map.mp hmem
    exact List.mem_map.mpr ⟨p, hp, by simp [hpid]⟩
  · obtain ⟨p, hp, hfp⟩ := List.mem_map.mp hq
    by_cases hid : p.id = pid
    · rw [← hfp]; simp [hid]
    · rw [← hfp] at hqid
      simp [hid] at hqid

/-- A one-project store used to exercise the project-store claims. -/
def dbOne : DB :=
  { consultants := [],
    projects := [{ id := 1, name := "old", duration := 3, sales_price := 5,
                   consultants_json := [] }],
    nextId := 2 }

/-- Witness for C5 (amended): updating id 99, which `dbOne` does not contain,
returns the store unchanged without error. -/
theorem spec_C5_witness :
    update_project dbOne 99 "x" 1 0 [] = Except.ok dbOne := by
  obtain ⟨db', hok, hnone, -⟩ := spec_C5 dbOne 99 "x" 1 0 []
  rw [hok, hnone (by decide)]

theorem filter_ne_length_of_mem {l : List Project} {pid : Nat}
    (hnd : (l.map Project.id).Nodup) {p : Project} (hp : p ∈ l) (hpid : p.id = pid) :
    (l.filter (fun q => q.id != pid)).length + 1 = l.length := by
  induction l with
  | nil => cases hp
  | cons a t ih =>
      simp only [List.map_cons, List.nodup_cons] at hnd
      rcases List.mem_cons.mp hp with rfl | hpt
      · rw [List.filter_cons, if_neg (by simp [hpid])]
        have hkeep : t.filter (fun q => q.id != pid) = t := by
          apply List.filter_eq_self.mpr
          intro q hq
          simp only [bne_iff_ne, ne_eq]
          intro hEq
          apply hnd.1
          have hpq : p.id = q.id := by rw [hpid, hEq]
          rw [hpq]
          exact List.mem_map_of_mem Project.id hq
        rw [hkeep, List.length_cons]
      · have haid : (a.id != pid) = true := by
          simp only [bne_iff_ne, ne_eq]
          intro hEq
          exact hnd.1 (by rw [hEq, ← hpid]; exact List.mem_map_of_mem Project.id hpt)
        rw [List.filter_cons, if_pos haid, List.length_cons, List.length_cons,
          ← ih hnd.2 hpt]

/-- Claim C8: `delete_project` on an absent id raises no error and leaves the
store unchanged (in particular the project count is unaltered); on a present
id (ids are unique, `id SERIAL PRIMARY KEY`) it removes exactly that project:
the project is gone, every other project survives, and the count drops by
one. -/
theorem spec_C8 (db : DB) (pid : Nat)
    (hnd : (db.projects.map Project.id).Nodup) :
    ∃ db', delete_project db pid = Except.ok db'
      ∧ (pid ∉ db.projects.map Project.id → db' = db)
      ∧ (∀ p ∈ db.projects, p.id = pid →
          p ∉ db'.projects
          ∧ (∀ q ∈ db.projects, q ≠ p → q ∈ db'.projects)
          ∧ db'.projects.length + 1 = db.projects.length) := by
  refine ⟨_, rfl, fun habs => ?_, fun p hp hpid => ⟨?_, fun q hq hqp => ?_, ?_⟩⟩
  · have hfil : db.projects.filter (fun q => q.id != pid) = db.projects := by
      apply List.filter_eq_self.mpr
      intro a ha
      simp only [bne_iff_ne, ne_eq]
      exact fun hEq => habs (hEq ▸ List.mem_map_of_mem Project.id ha)
    show ({ db with projects := _ } : DB) = db
    rw [hfil]
  · simp [List.mem_filter, hpid]
  · have hqid : q.id ≠ pid := fun hEq =>
      hqp (List.inj_on_of_nodup_map hnd hq hp (by rw [hEq, hpid]))
    simp [List.mem_filter, hq, hqid]
  · exact filter_ne_length_of_mem hnd hp hpid

/-- Witness for C8: deleting id 99, which `dbOne` does not contain, returns
the store unchanged without error. -/
theorem spec_C8_witness :
    delete_project dbOne 99 = Except.ok dbOne := by
  obtain ⟨db', hok, hnone, -⟩ := spec_C8 dbOne 99 (by decide)
  rw [hok, hnone (by decide)]

/-- Claim C10: `update_project` and `delete_project` are frame-respecting —
the rate table is untouched, every project whose id differs from the given id
survives with all fields unchanged, and no project with a different id
appears or disappears. -/
theorem spec_C10 (db : DB) (pid : Nat) (name : String) (dur : Int) (sp : ℚ)
    (asg : Assignment) :
    (∀ db', update_project db pid name dur sp asg = Except.ok db' →
      db'.consultants = db.consultants
      ∧ (∀ p ∈ db.projects, p.id ≠ pid → p ∈ db'.projects)
      ∧ (∀ p ∈ db'.projects, p.id ≠ pid → p ∈ db.projects))
    ∧ (∀ db', delete_project db pid = Except.ok db' →
      db'.consultants = db.consultants
      ∧ (∀ p ∈ db.projects, p.id ≠ pid → p ∈ db'.projects)
      ∧ (∀ p ∈ db'.projects, p.id ≠ pid → p ∈ db.projects)) := by
  constructor
  · intro db' hok
    have hdb' := (Except.ok.inj hok).symm
    subst hdb'
    refine ⟨rfl, fun p hp hpne => ?_, fun p hp hpne => ?_⟩
    · exact List.mem_map.mpr ⟨p, hp, by simp [hpne]⟩
    · obtain ⟨q, hq, hfq⟩ := List.mem_map.mp hp
      by_cases hid : q.id = pid
      · rw [← hfq] at hpne
        simp [hid] at hpne
      · rw [← hfq]
        simpa [hid] using hq
  · intro db' hok
    have hdb' := (Except.ok.inj hok).symm
    subst hdb'
    refine ⟨rfl, fun p hp hpne => ?_, fun p hp _ => ?_⟩
    · exact List.mem_filter.mpr ⟨hp, by simpa using hpne⟩
    · exact (List.mem_filter.mp hp).1

/-! ### Claims about the rate-table upsert -/

theorem upsertRate_cases (t : List ConsultantRate) (role : String) (sal fix : ℚ) :
    (upsertRate t role sal fix
        = t.map (fun x => if x.role == role then ConsultantRate.mk role sal fix else x)
      ∧ ∃ a, t.find? (fun x => x.role == role) = some a)
    ∨ (upsertRate t role sal fix = t ++ [ConsultantRate.mk role sal fix]
      ∧ t.find? (fun x => x.role == role) = none) := by
  unfold upsertRate
  cases hf : t.find? (fun x => x.role == role) with
  | some a => left; exact ⟨rfl, ⟨a, rfl⟩⟩
  | none => right; exact ⟨rfl, rfl⟩

theorem filter_overwrite (role : String) (sal fix : ℚ) (t : List ConsultantRate)
    (hnd : (t.map ConsultantRate.role).Nodup) (hmem : ∃ a ∈ t, a.role = role) :
    (t.map (fun x => if x.role == role then ConsultantRate.mk role sal fix else x)).filter
        (fun r => r.role == role) = [ConsultantRate.mk role sal fix] := by
  induction t with
  | nil => rcases hmem with ⟨a, ha, -⟩; cases ha
  | cons b t ih =>
      simp only [List.map_cons, List.nodup_cons] at hnd
      by_cases hb : (b.role == role) = true
      · simp only [List.map_cons, List.filter_cons]
        rw [if_pos hb]
        rw [if_pos (by simp : ((ConsultantRate.mk role sal fix).role == role) = true)]
        have hbrole : b.role = role := by simpa using hb
        have htail : ∀ x ∈ t, ¬ (x.role == role) = true := by
          intro x hx hxr
          have hxrole : x.role = role := by simpa using hxr
          apply hnd.1
          rw [hbrole, ← hxrole]
          exact List.mem_map_of_mem ConsultantRate.role hx
        have hnil : (t.map (fun x =>
            if x.role == role then ConsultantRate.mk role sal fix else x)).filter
              (fun r => r.role == role) = [] := by
          rw [List.filter_eq_nil_iff]
          intro c hc
          obtain ⟨x, hx, hfx⟩ := List.mem_map.mp hc
          rw [← hfx, if_neg (htail x hx)]
          exact htail x hx
        rw [hnil]
      · simp only [List.map_cons, List.filter_cons]
        rw [if_neg hb, if_neg hb]
        apply ih hnd.2
        rcases hmem with ⟨a, ha, har⟩
        rcases List.mem_cons.mp ha with rfl | hat
        · exact absurd (by simp [har]) hb
        · exact ⟨a, hat, har⟩

theorem upsertRate_filter (t : List ConsultantRate) (role : String) (sal fix : ℚ)
    (hnd : (t.map ConsultantRate.role).Nodup) :
    (upsertRate t role sal fix).filter (fun r => r.role == role)
      = [ConsultantRate.mk role sal fix] := by
  rcases upsertRate_cases t role sal fix with ⟨h, a, hf⟩ | ⟨h, hf⟩
  · rw [h]
    apply filter_overwrite role sal fix t hnd
    exact ⟨a, List.mem_of_find?_eq_some hf, by simpa using List.find?_some hf⟩
  · rw [h, List.filter_append]
    have hnil : t.filter (fun r => r.role == role) = [] := by
      rw [List.filter_eq_nil_iff]
      exact fun a ha => List.find?_eq_none.mp hf a ha
    rw [hnil]
    simp

theorem upsertRate_keeps (t : List ConsultantRate) (role : String) (sal fix : ℚ)
    (r : ConsultantRate) (hr : r ∈ t) (hne : r.role ≠ role) :
    r ∈ upsertRate t role sal fix := by
  rcases upsertRate_cases t role sal fix with ⟨h, -⟩ | ⟨h, -⟩
  · rw [h]
    refine List.mem_map.mpr ⟨r, hr, ?_⟩
    rw [if_neg (by simpa using hne)]
  · rw [h]
    exact List.mem_append_left _ hr

theorem upsertRate_nodup (t : List ConsultantRate) (role : String) (sal fix : ℚ)
    (hnd : (t.map ConsultantRate.role).Nodup) :
    ((upsertRate t role sal fix).map ConsultantRate.role).Nodup := by
  rcases upsertRate_cases t role sal fix with ⟨h, -⟩ | ⟨h, hf⟩
  · rw [h, List.map_map]
    have hroles : t.map (ConsultantRate.role ∘ fun x =>
        if x.role == role then ConsultantRate.mk role sal fix else x)
          = t.map ConsultantRate.role := by
      apply List.map_congr_left
      intro x hx
      simp only [Function.comp_apply]
      by_cases hxr : (x.role == role) = true
      · have hxrole : x.role = role := by simpa using hxr
        rw [if_pos hxr]
        simp [hxrole]
      · rw [if_neg hxr]
    rw [hroles]
    exact hnd
  · rw [h, List.map_append]
    refine List.Nodup.append hnd (List.nodup_singleton _) ?_
    intro x hx hx2
    have hxrole : x = role := by simpa using hx2
    subst hxrole
    obtain ⟨b, hb, hbr⟩ := List.mem_map.mp hx
    exact absurd (by simp [hbr]) (List.find?_eq_none.mp hf b hb)

/-- Counterexample to C6 as stated: `add_consultant` does not validate the
role name — upserting the empty string succeeds and inserts a row keyed on
`""` instead of failing with `ValidationError`. -/
theorem spec_C6_counterexample :
    add_consultant dbEmpty "" 100 5
        = Except.ok (DB.mk [ConsultantRate.mk "" 100 5] [] 1)
      ∧ add_consultant dbEmpty "" 100 5 ≠ Except.error AppError.validationError :=
  ⟨rfl, by simp [add_consultant]⟩

/-- Claim C6 as amended: `add_consultant` upserts — a fresh role is inserted,
an existing role's row is overwritten in place, so after the call (in
particular after upserting the same role twice) exactly one row carries that
role, with the latest values, every other role's row survives, and role
uniqueness is preserved; but the function does not itself reject the empty
role — the empty-role check lives in the UI form (app.py lines 322-325), so
`add_consultant` never fails with `ValidationError`, not even for
`role = ""`. -/
theorem spec_C6 (db : DB) (role : String) (annual_salary fixed_cost : ℚ)
    (hnd : (db.consultants.map ConsultantRate.role).Nodup) :
    ∃ db', add_consultant db role annual_salary fixed_cost = Except.ok db'
      ∧ db'.consultants.filter (fun r => r.role == role)
          = [ConsultantRate.mk role annual_salary fixed_cost]
      ∧ (∀ r ∈ db.consultants, r.role ≠ role → r ∈ db'.consultants)
      ∧ (db'.consultants.map ConsultantRate.role).Nodup
      ∧ db'.projects = db.projects :=
  ⟨_, rfl, upsertRate_filter db.consultants role annual_salary fixed_cost hnd,
    fun r hr hne => upsertRate_keeps db.consultants role annual_salary fixed_cost r hr hne,
    upsertRate_nodup db.consultants role annual_salary fixed_cost hnd, rfl⟩

/-- Witness for C6 (amended): upserting "Dev" onto a table that already holds
a row ("Dev", 100, 5) — i.e. the second of two successive upserts of the same
role — leaves exactly one row for "Dev", carrying the latest values. -/
theorem spec_C6_witness :
    (DB.mk [ConsultantRate.mk "Dev" 200 7] [] 1).consultants.filter
        (fun r => r.role == "Dev") = [ConsultantRate.mk "Dev" 200 7] := by
  obtain ⟨db', hok, hfil, -⟩ :=
    spec_C6 (DB.mk [ConsultantRate.mk "Dev" 100 5] [] 1) "Dev" 200 7 (by decide)
  have hconc : add_consultant (DB.mk [ConsultantRate.mk "Dev" 100 5] [] 1) "Dev" 200 7
      = Except.ok (DB.mk [ConsultantRate.mk "Dev" 200 7] [] 1) := by rfl
  rw [hok] at hconc
  rw [← Except.ok.inj hconc]
  exact hfil

/-- Witness for C10: updating project 1 of `dbOne` keeps the (empty) rate
table and, deleting id 99 from `dbOne`, project 1 survives. -/
theorem spec_C10_witness :
    ({ id := 1, name := "old", duration := 3, sales_price := 5,
       consultants_json := [] } : Project) ∈ dbOne.projects :=
  (((spec_C10 dbOne 99 "x" 1 0 []).2 dbOne (by rfl)).2.1
    { id := 1, name := "old", duration := 3, sales_price := 5, consultants_json := [] }
    (by decide) (by decide))

end ConsultingApp
